import Mathlib

/-!
Verification of the zod-friendly-forms library (`src/index.ts`, plus the
historical nested-mode variant in the repository) against its
natural-language specification.

The TypeScript source is shallowly embedded: JavaScript objects used as
string-keyed dictionaries become association lists (`List (String × _)`)
together with a `setKey` operation that mirrors JavaScript property
assignment (replace the value in place when the key exists, append
otherwise); Zod issues become the inductive `ZodIssue` carrying exactly the
fields the library reads (`path`, `message`, `code`, `unionErrors`); the Zod
schema itself is an external collaborator and is modelled as an opaque
function from input values to a safe-parse result.
-/

namespace ZodFriendlyForms

/-- One segment of a Zod issue path: a property name or an array index. -/
inductive Seg : Type where
  | str : String → Seg
  | idx : Nat → Seg
deriving DecidableEq

/-- JavaScript stringification of a path segment, as performed by
`Array.prototype.join`. -/
def Seg.render : Seg → String
  | .str s => s
  | .idx n => toString n

/-- A Zod validation issue, with the fields read by `flattenErrors` in
`src/index.ts`: `path`, `message`, `code`, and — for `invalid_union`
issues — `unionErrors`, one list of sub-issues per attempted union
alternative (each Zod `ZodError` is represented by its `errors` list). -/
inductive ZodIssue : Type where
  | mk : List Seg → String → String → List (List ZodIssue) → ZodIssue

/-- Accessor for the issue path. -/
def ZodIssue.path : ZodIssue → List Seg
  | .mk p _ _ _ => p

/-- Accessor for the issue message. -/
def ZodIssue.message : ZodIssue → String
  | .mk _ m _ _ => m

/-- Accessor for the issue code. -/
def ZodIssue.code : ZodIssue → String
  | .mk _ _ c _ => c

/-- Accessor for the per-alternative sub-issue lists of a union issue. -/
def ZodIssue.unionErrors : ZodIssue → List (List ZodIssue)
  | .mk _ _ _ u => u

/-- JavaScript property assignment `m[k] = v` on an object represented as an
association list: when the key is already present its value is replaced in
place (keeping the key's position, as JavaScript objects do), otherwise the
new entry is appended at the end. -/
def setKey {α : Type} (m : List (String × α)) (k : String) (v : α) :
    List (String × α) :=
  if m.any (fun p => p.1 = k) then
    m.map (fun p => if p.1 = k then (k, v) else p)
  else m ++ [(k, v)]

/-- Property lookup `m[k]` on an association list: the value of the first
entry with the given key (JavaScript objects never hold duplicate keys, so
the first entry is the only one for maps built through `setKey`). -/
def lookupKey {α : Type} (k : String) : List (String × α) → Option α
  | [] => none
  | p :: rest => if p.1 = k then some p.2 else lookupKey k rest

/-- The value of the last write to key `k` in an ordered sequence of
key/value writes, or `none` when no write targets `k`. This is the
specification-side description of last-writer-wins accumulation. -/
def lastWrite {α : Type} (k : String) : List (String × α) → Option α
  | [] => none
  | p :: rest =>
    match lastWrite k rest with
    | some v => some v
    | none => if p.1 = k then some p.2 else none

/-- Dot-notation key of an issue path: `path.join(".")` in the source;
the empty path yields the empty string. -/
def keyOf (path : List Seg) : String :=
  String.intercalate "." (path.map Seg.render)

/-- One step of the `reduce` in `flattenErrors` (`src/index.ts`, lines
74–113): copy the accumulator, write the issue's message at its dot-joined
key, and — only when the issue's code is `invalid_union` — additionally
write every sub-issue of every union alternative at that sub-issue's own
dot-joined key, in branch order and then issue order within a branch. -/
def flattenStep (prev : List (String × String)) (next : ZodIssue) :
    List (String × String) :=
  let result := setKey prev (keyOf next.path) next.message
  if next.code = "invalid_union" then
    next.unionErrors.foldl
      (fun acc unionError =>
        unionError.foldl
          (fun acc2 e => setKey acc2 (keyOf e.path) e.message) acc)
      result
  else result

/-- The function `flattenErrors` from `src/index.ts`: fold the issue list, in report
order, through `flattenStep`, starting from the empty error map. -/
def flattenErrors (issues : List ZodIssue) : List (String × String) :=
  issues.foldl flattenStep []

/-- The ordered sequence of key/message writes that `flattenStep` performs
for one issue: the issue's own write first, then — for `invalid_union`
issues — one write per sub-issue of each alternative, in branch order then
issue order within a branch. Specification-side description used to state
the flattening theorems. -/
def writesOf (i : ZodIssue) : List (String × String) :=
  (keyOf i.path, i.message) ::
    (if i.code = "invalid_union" then
      i.unionErrors.flatMap
        (fun b => b.map (fun e => (keyOf e.path, e.message)))
    else [])

/-- Value stored in a nested-mode error map (the historical `Errors` type in
`src/unnamed/part_003`): either a message string or a deeper mapping. The
declared TypeScript type is one level deep, but the runtime `reduceRight`
builds arbitrarily deep objects, which this inductive captures. -/
inductive NVal : Type where
  | str : String → NVal
  | obj : List (String × NVal) → NVal

/-- JavaScript object-spread merge of `b` into `a`: every entry of `b` is
assigned into (a copy of) `a` in order, overwriting values of keys already
present and appending new keys. -/
def mergeShallow {α : Type} (a b : List (String × α)) : List (String × α) :=
  b.foldl (fun acc p => setKey acc p.1 p.2) a

/-- The `reduceRight` of the nested branch of `flattenErrors` in
`src/unnamed/part_003` (lines 152–156): walk the path from the last segment
to the first with the element index available; the last segment maps the
message directly, every outer segment wraps the accumulator in one more
object level. The initial accumulator is the empty object. -/
def buildInner (path : List Seg) (message : String) : List (String × NVal) :=
  path.enum.foldr
    (fun p acc =>
      if p.1 = path.length - 1 then [(p.2.render, NVal.str message)]
      else [(p.2.render, NVal.obj acc)])
    []

/-- The function `flattenErrors` from `src/unnamed/part_003` (lines 144–162), the
historical variant with the `flatResult` switch: flat mode assigns the
message at the dot-joined key; nested mode spread-merges the single-issue
nested mapping built by `buildInner` into the accumulator. -/
def flattenErrorsV2 (issues : List ZodIssue) (flatResult : Bool) :
    List (String × NVal) :=
  issues.foldl
    (fun prev next =>
      if flatResult then setKey prev (keyOf next.path) (NVal.str next.message)
      else mergeShallow prev (buildInner next.path next.message))
    []

/-- Specification-side description of the single-issue nested mapping: the
empty path yields the empty mapping; a one-segment path maps that segment to
the message; a longer path wraps the mapping of its tail in one more level.
To be proved equal to `buildInner`. -/
def nestedOne : List Seg → String → List (String × NVal)
  | [], _ => []
  | s :: rest, msg =>
    [(s.render,
      match rest with
      | [] => NVal.str msg
      | _ :: _ => NVal.obj (nestedOne rest msg))]

/-- A JavaScript runtime value, as far as the library observes it: strings,
numbers, booleans, null, undefined, and plain objects. -/
inductive JValue : Type where
  | str : String → JValue
  | num : Int → JValue
  | bool : Bool → JValue
  | null : JValue
  | undef : JValue
  | obj : List (String × JValue) → JValue

/-- Strict equality against the empty string, `v === ""`: true exactly for
the string value of length zero. -/
def JValue.isEmptyStr : JValue → Bool
  | .str s => s = ""
  | _ => false

/-- The `stripEmptyStrings` pre-processing loop of `parseForm`
(`src/index.ts`, lines 57–61) on an object's entries: every key whose value
is exactly the empty string is reassigned `undefined`; all other entries are
untouched. -/
def stripEmptyValues (m : List (String × JValue)) : List (String × JValue) :=
  m.map (fun p => if p.2.isEmptyStr then (p.1, JValue.undef) else p)

/-- Whether the pre-processing loop raises instead of returning:
`Object.keys(unknownData)` (`src/index.ts`, line 58) throws a `TypeError`
exactly when its argument is `null` or `undefined`. On every other value it
returns normally (for non-null primitives it returns the coerced object's
own enumerable keys, none of which can hold the empty string). -/
def stripStageThrows : JValue → Bool
  | .null => true
  | .undef => true
  | _ => false

/-- The pre-processing loop on a runtime value on which it returns (that is,
with `stripStageThrows v = false`): objects have their entries stripped;
non-null primitives are unaffected, since `Object.keys` of such a value
yields no own enumerable key holding the empty string. For `null` and
`undefined` the source throws before validation; that throwing path is
outside this function and marked by `stripStageThrows`. -/
def stripJValue : JValue → JValue
  | .obj m => .obj (stripEmptyValues m)
  | v => v

/-- The runtime `data` argument of `parseForm`: a plain mapping, a
`FormData` container, a `URLSearchParams` container (both modelled by their
ordered entry list), or — outside the declared TypeScript type but possible
at runtime — any other value. -/
inductive InputData : Type where
  | record : List (String × JValue) → InputData
  | formData : List (String × String) → InputData
  | urlSearchParams : List (String × String) → InputData
  | other : JValue → InputData

/-- The function `extractFormData` from `src/index.ts` (lines 115–121): iterate the
container's entries in order and assign `result[key] = value` into an
initially empty object. -/
def extractFormData (data : List (String × String)) :
    List (String × JValue) :=
  data.foldl (fun result p => setKey result p.1 (JValue.str p.2)) []

/-- Result of the external schema engine's `safeParse`: validated data or an
ordered issue list. The schema itself is out of scope and modelled as an
opaque function. -/
inductive SafeParseResult : Type where
  | success : JValue → SafeParseResult
  | failure : List ZodIssue → SafeParseResult

/-- An opaque schema handle: the non-throwing parse entry point. -/
def Schema : Type := JValue → SafeParseResult

/-- Options accepted by `parseForm` in `src/index.ts`. -/
structure ParseOptions : Type where
  stripEmptyStrings : Bool

/-- The object returned by `parseForm`, with its three optional properties,
mirroring the `ParseFormResult` union in `src/index.ts` (lines 19–27) at the
runtime-object level so that mutual exclusivity is a provable property
rather than a typing convention. -/
structure ParseFormResult : Type where
  errors : Option (List (String × String))
  zodError : Option (List ZodIssue)
  validData : Option JValue

/-- A `parseForm` call observed together with its effect on the caller's
`data` argument: the source pre-processes `unknownData` in place, and for a
plain-mapping argument `unknownData` aliases the caller's object, so the
caller-visible post-state is part of the call's meaning. -/
structure ParseFormOutput : Type where
  res : ParseFormResult
  dataAfter : InputData

/-- The input-adapter stage of `parseForm` (lines 51–55): `FormData` and
`URLSearchParams` go through `extractFormData`; anything else — the plain
mapping as well as any other runtime value — is used as `unknownData`
unchanged. -/
def normalizeInput : InputData → JValue
  | .record m => .obj m
  | .formData entries => .obj (extractFormData entries)
  | .urlSearchParams entries => .obj (extractFormData entries)
  | .other v => v

/-- The value handed to `schema.safeParse`: the normalized input, stripped
of empty strings when the option is set. Meaningful on the returning region
of the strip stage: when the option is set and the normalized input is
`null` or `undefined` (`stripStageThrows`), the source throws before
`safeParse` and no value is handed over. -/
def prepareData (data : InputData) (stripOpt : Bool) : JValue :=
  if stripOpt then stripJValue (normalizeInput data) else normalizeInput data

/-- The caller's `data` argument as observable after the call: the strip
loop runs on `unknownData`, which aliases the caller's object exactly when
`data` was not a form-encoded container (for those, `extractFormData` built
a fresh object and the container is untouched). -/
def dataAfterCall (data : InputData) (stripOpt : Bool) : InputData :=
  if stripOpt then
    match data with
    | .record m => .record (stripEmptyValues m)
    | .other v => .other (stripJValue v)
    | d => d
  else data

/-- Result assembly (lines 65–71): a successful parse yields an object with
only `validData` set; a failed parse yields an object with `errors` (the
flattened map) and `zodError` (the raw issue list) set and no `validData`. -/
def assembleResult (parsed : SafeParseResult) (dataAfter : InputData) :
    ParseFormOutput :=
  match parsed with
  | .success d => ⟨⟨none, none, some d⟩, dataAfter⟩
  | .failure issues =>
    ⟨⟨some (flattenErrors issues), some issues, none⟩, dataAfter⟩

/-- The function `parseForm` from `src/index.ts` (lines 43–72): normalize the input,
optionally strip empty strings (in place), invoke the schema engine, and
assemble the discriminated result. This function gives the meaning of a
returning call; when `stripEmptyStrings` is set and the normalized input is
`null` or `undefined`, the source call instead throws a `TypeError` at
`Object.keys` (see `stripStageThrows`) and returns nothing. -/
def parseForm (schema : Schema) (data : InputData) (options : ParseOptions) :
    ParseFormOutput :=
  assembleResult (schema (prepareData data options.stripEmptyStrings))
    (dataAfterCall data options.stripEmptyStrings)

/-- A schema accepting every input, used to exhibit that `parseForm`
forwards unsupported input containers to validation. -/
def acceptAllSchema : Schema := fun v => .success v

/-- Concrete issue used by witnesses: a plain issue at path `a`. -/
def issueA : ZodIssue := .mk [.str "a"] "m1" "too_small" []

/-- Concrete issue used by witnesses: a second plain issue at path `a`. -/
def issueB : ZodIssue := .mk [.str "a"] "m2" "custom" []

/-- Concrete union issue used by witnesses: a root-path `invalid_union`
issue with two alternative branches whose sub-issues touch `enabled` and
`title`. -/
def unionIssue : ZodIssue :=
  .mk [] "Invalid input" "invalid_union"
    [[ZodIssue.mk [.str "enabled"] "lit" "invalid_literal" [],
      ZodIssue.mk [.str "title"] "req" "invalid_type" []],
     [ZodIssue.mk [.str "enabled"] "lit2" "invalid_literal" []]]

/-- Concrete issue used by witnesses: an issue with an empty path. -/
def rootIssue : ZodIssue := .mk [] "root failure" "custom" []

section AssocLemmas

variable {α : Type}

theorem lookupKey_nil (k : String) : lookupKey (α := α) k [] = none := rfl

theorem lookupKey_cons (k : String) (p : String × α) (rest : List (String × α)) :
    lookupKey k (p :: rest) =
      if p.1 = k then some p.2 else lookupKey k rest := rfl

theorem lookupKey_append (k : String) (a b : List (String × α)) :
    lookupKey k (a ++ b) =
      match lookupKey k a with
      | some v => some v
      | none => lookupKey k b := by
  induction a with
  | nil => simp [lookupKey]
  | cons p rest ih =>
    by_cases h : p.1 = k <;> simp [lookupKey, h, ih]

/-- Replacing the value stored at a different key is transparent to
`lookupKey k`. -/
theorem lookupKey_map_ne (k k' : String) (v : α) (m : List (String × α))
    (hne : k' ≠ k) :
    lookupKey k (m.map (fun p => if p.1 = k' then (k', v) else p)) =
      lookupKey k m := by
  induction m with
  | nil => rfl
  | cons p rest ih =>
    simp only [List.map_cons]
    by_cases h : p.1 = k'
    · rw [if_pos h, lookupKey_cons, lookupKey_cons]
      have h2 : ¬ p.1 = k := by rw [h]; exact hne
      rw [if_neg (by simpa using hne), if_neg h2, ih]
    · rw [if_neg h, lookupKey_cons, lookupKey_cons, ih]

/-- Lookup after a JavaScript-style assignment: the assigned key reads back
the assigned value, every other key is unaffected. -/
theorem lookupKey_setKey (k k' : String) (v : α) (m : List (String × α)) :
    lookupKey k (setKey m k' v) =
      if k' = k then some v else lookupKey k m := by
  unfold setKey
  by_cases hmem : m.any (fun p => p.1 = k') = true
  · rw [if_pos hmem]
    by_cases hk : k' = k
    · subst hk
      induction m with
      | nil => simp at hmem
      | cons p rest ih =>
        by_cases h : p.1 = k'
        · simp [lookupKey, h]
        · simp only [List.any_cons, Bool.or_eq_true, decide_eq_true_eq] at hmem
          rcases hmem with h1 | h2
          · exact absurd h1 h
          · simp [lookupKey, h, ih h2]
    · rw [if_neg hk]
      exact lookupKey_map_ne k k' v m hk
  · rw [if_neg hmem]
    rw [lookupKey_append]
    by_cases hk : k' = k
    · subst hk
      have hnone : lookupKey k' m = none := by
        induction m with
        | nil => rfl
        | cons p rest ih =>
          simp only [List.any_cons, Bool.or_eq_true, decide_eq_true_eq] at hmem
          push_neg at hmem
          simp [lookupKey, hmem.1, ih (by simpa using hmem.2)]
      simp [hnone, lookupKey]
    · cases hm : lookupKey k m with
      | some v' => simp [hk]
      | none => simp [lookupKey, hk]

theorem lastWrite_nil (k : String) : lastWrite (α := α) k [] = none := rfl

theorem lastWrite_cons (k : String) (p : String × α) (rest : List (String × α)) :
    lastWrite k (p :: rest) =
      match lastWrite k rest with
      | some v => some v
      | none => if p.1 = k then some p.2 else none := rfl

/-- Folding a sequence of writes through `setKey` realises last-writer-wins:
the final value at each key is the last write to that key, falling back to
the initial map when no write targets the key. -/
theorem lookupKey_foldl_setKey (k : String) (writes : List (String × α))
    (m0 : List (String × α)) :
    lookupKey k (writes.foldl (fun m p => setKey m p.1 p.2) m0) =
      match lastWrite k writes with
      | some v => some v
      | none => lookupKey k m0 := by
  induction writes generalizing m0 with
  | nil => simp [lastWrite]
  | cons p rest ih =>
    rw [List.foldl_cons, ih, lastWrite_cons]
    cases hrest : lastWrite k rest with
    | some v => rfl
    | none =>
      simp only
      rw [lookupKey_setKey]
      by_cases h : p.1 = k <;> simp [h]

/-- A successful `lastWrite` exhibits a write with the looked-up key. -/
theorem lastWrite_isSome_mem (k : String) (writes : List (String × α)) (v : α)
    (h : lastWrite k writes = some v) : ∃ p ∈ writes, p.1 = k ∧ p.2 = v := by
  induction writes with
  | nil => simp [lastWrite] at h
  | cons p rest ih =>
    unfold lastWrite at h
    cases hrest : lastWrite k rest with
    | some w =>
      rw [hrest] at h
      obtain ⟨q, hq, hk, hv⟩ := ih (by rw [hrest]; simpa using h)
      exact ⟨q, List.mem_cons_of_mem _ hq, hk, hv⟩
    | none =>
      rw [hrest] at h
      simp only at h
      by_cases hk : p.1 = k
      · rw [if_pos hk] at h
        exact ⟨p, List.mem_cons_self _ _, hk, Option.some.inj h⟩
      · rw [if_neg hk] at h
        exact absurd h (by simp)

end AssocLemmas

/-- Mapping a value-only transformation over a write sequence commutes with
`lastWrite`. -/
theorem lastWrite_map {α β : Type} (k : String) (f : α → β)
    (l : List (String × α)) :
    lastWrite k (l.map (fun p => (p.1, f p.2))) = (lastWrite k l).map f := by
  induction l with
  | nil => rfl
  | cons p rest ih =>
    rw [List.map_cons, lastWrite_cons, lastWrite_cons, ih]
    cases lastWrite k rest <;> by_cases h : p.1 = k <;> simp [h]

/-- When no write in the sequence targets `k`, `lastWrite` is `none`. -/
theorem lastWrite_eq_none {α : Type} (k : String) (writes : List (String × α))
    (h : lastWrite k writes = none) : ∀ p ∈ writes, p.1 ≠ k := by
  induction writes with
  | nil => simp
  | cons p rest ih =>
    rw [lastWrite_cons] at h
    cases hrest : lastWrite k rest with
    | some v => rw [hrest] at h; simp at h
    | none =>
      rw [hrest] at h
      simp only at h
      intro q hq
      rcases List.mem_cons.mp hq with rfl | hmem
      · intro hk
        rw [if_pos hk] at h
        simp at h
      · exact ih hrest q hmem

/-- A write whose key is `k` forces `lastWrite k` to be populated. -/
theorem lastWrite_isSome_of_mem {α : Type} (k : String)
    (writes : List (String × α)) (p : String × α) (hp : p ∈ writes)
    (hk : p.1 = k) : (lastWrite k writes).isSome = true := by
  cases h : lastWrite k writes with
  | some v => rfl
  | none => exact absurd hk (lastWrite_eq_none k writes h p hp)

/-- Folding over a `flatMap` is the nested fold. -/
theorem foldl_flatMap {α β γ : Type} (g : β → List γ) (step : α → γ → α)
    (l : List β) (init : α) :
    (l.flatMap g).foldl step init =
      l.foldl (fun acc x => (g x).foldl step acc) init := by
  induction l generalizing init with
  | nil => rfl
  | cons x rest ih =>
    rw [List.flatMap_cons, List.foldl_append, List.foldl_cons, ih]

/-- One flattening step performs exactly the write sequence `writesOf`. -/
theorem flattenStep_eq_writes (m : List (String × String)) (i : ZodIssue) :
    flattenStep m i =
      (writesOf i).foldl (fun acc p => setKey acc p.1 p.2) m := by
  unfold flattenStep writesOf
  by_cases h : i.code = "invalid_union"
  · rw [if_pos h, if_pos h, List.foldl_cons]
    rw [foldl_flatMap]
    simp only [List.foldl_map]
  · rw [if_neg h, if_neg h, List.foldl_cons, List.foldl_nil]

/-- The map `flattenErrors` folds the full write sequence of all issues, in report
order, through JavaScript assignment. -/
theorem flattenErrors_eq_writes (issues : List ZodIssue) :
    flattenErrors issues =
      (issues.flatMap writesOf).foldl (fun acc p => setKey acc p.1 p.2) [] := by
  unfold flattenErrors
  rw [foldl_flatMap]
  exact List.foldl_ext flattenStep _ [] (fun acc i _ => flattenStep_eq_writes acc i)

/-- Master characterisation of flat mode: the final value at any key is the
last write to that key across the full ordered write sequence. -/
theorem lookupKey_flattenErrors (issues : List ZodIssue) (k : String) :
    lookupKey k (flattenErrors issues) =
      lastWrite k (issues.flatMap writesOf) := by
  rw [flattenErrors_eq_writes, lookupKey_foldl_setKey]
  cases lastWrite k (issues.flatMap writesOf) <;> rfl

/-- The indexed `reduceRight` of the source computes the clean structural
right fold, for any starting index consistent with the total length. -/
theorem enumFrom_foldr_nested (msg : String) (L : Nat) :
    ∀ (rest : List Seg) (n : Nat), n + rest.length = L → rest ≠ [] →
      (List.enumFrom n rest).foldr
        (fun p acc =>
          if p.1 = L - 1 then [(p.2.render, NVal.str msg)]
          else [(p.2.render, NVal.obj acc)]) [] = nestedOne rest msg := by
  intro rest
  induction rest with
  | nil => intro n _ hne; exact absurd rfl hne
  | cons s t ih =>
    intro n h _
    cases t with
    | nil =>
      simp only [List.enumFrom, List.foldr]
      have hn : n = L - 1 := by simp at h; omega
      rw [if_pos hn]
      rfl
    | cons s2 t2 =>
      have hlen : (n + 1) + (s2 :: t2).length = L := by
        simp at h ⊢; omega
      have hn : ¬ (n = L - 1) := by simp at h; omega
      rw [show List.enumFrom n (s :: s2 :: t2)
            = (n, s) :: List.enumFrom (n + 1) (s2 :: t2) from rfl,
        List.foldr_cons, ih (n + 1) hlen (by simp)]
      simp only [if_neg hn]
      rfl

/-- The source's indexed `reduceRight` equals the structural right fold. -/
theorem buildInner_eq_nestedOne (path : List Seg) (msg : String) :
    buildInner path msg = nestedOne path msg := by
  cases path with
  | nil => rfl
  | cons s t =>
    unfold buildInner
    exact enumFrom_foldr_nested msg (s :: t).length (s :: t) 0 (by simp)
      (by simp)

/-- Nested mode folds the per-issue root writes through JavaScript
assignment: each issue with a non-empty path contributes exactly one write
at its root segment, carrying its whole nested subtree as the value. -/
theorem flattenErrorsV2_nested_eq (issues : List ZodIssue) :
    flattenErrorsV2 issues false =
      (issues.flatMap (fun i => nestedOne i.path i.message)).foldl
        (fun acc p => setKey acc p.1 p.2) [] := by
  unfold flattenErrorsV2
  rw [foldl_flatMap]
  apply List.foldl_ext
  intro acc i _
  simp only [Bool.false_eq_true, if_false]
  unfold mergeShallow
  rw [buildInner_eq_nestedOne]

/-- Lookup-level characterisation of nested mode. -/
theorem lookupKey_flattenErrorsV2 (issues : List ZodIssue) (k : String) :
    lookupKey k (flattenErrorsV2 issues false) =
      lastWrite k (issues.flatMap (fun i => nestedOne i.path i.message)) := by
  rw [flattenErrorsV2_nested_eq, lookupKey_foldl_setKey]
  cases lastWrite k (issues.flatMap (fun i => nestedOne i.path i.message)) <;>
    rfl

/-- Pointwise behaviour of the strip stage: the value read at any key is the
original value, with the empty string replaced by `undefined`. -/
theorem lookupKey_stripEmptyValues (m : List (String × JValue)) (k : String) :
    lookupKey k (stripEmptyValues m) =
      (lookupKey k m).map
        (fun v => if v.isEmptyStr then JValue.undef else v) := by
  induction m with
  | nil => rfl
  | cons p rest ih =>
    unfold stripEmptyValues at ih ⊢
    rw [List.map_cons]
    by_cases hk : p.1 = k
    · cases hs : p.2.isEmptyStr <;>
        simp [lookupKey_cons, hk, hs]
    · cases hs : p.2.isEmptyStr <;>
        simp [lookupKey_cons, hk, hs, ih]

/-- For issues without the `invalid_union` code, the write sequence is one
write per issue, at the issue's dot-joined key. -/
theorem flatMap_writesOf_no_union (issues : List ZodIssue)
    (h : ∀ i ∈ issues, i.code ≠ "invalid_union") :
    issues.flatMap writesOf =
      issues.map (fun i => (keyOf i.path, i.message)) := by
  induction issues with
  | nil => rfl
  | cons i rest ih =>
    rw [List.flatMap_cons, List.map_cons]
    have hi : i.code ≠ "invalid_union" := h i (List.mem_cons_self _ _)
    have hrest : ∀ j ∈ rest, j.code ≠ "invalid_union" :=
      fun j hj => h j (List.mem_cons_of_mem _ hj)
    rw [ih hrest]
    unfold writesOf
    rw [if_neg hi]
    rfl

/-- C1. In flattened mode, every issue writes its message at the key
obtained by joining its path segments with a dot (the empty path giving the
key `""`, by definition of `keyOf`); issues are processed strictly in report
order and, when several issues resolve to the same key, the value finally
present is the message of the last such issue — overwrite, not aggregation.
Formally, for every sequence of plain issues (issues expanded further by the
separate union rule excluded), the value `flattenErrors` leaves at any key
`k` is exactly the last write in the ordered per-issue write sequence, and
every issue's key is populated in the final map. -/
theorem claim1_flat_last_writer_wins (issues : List ZodIssue) (k : String)
    (h : ∀ i ∈ issues, i.code ≠ "invalid_union") :
    (lookupKey k (flattenErrors issues) =
      lastWrite k (issues.map (fun i => (keyOf i.path, i.message))))
    ∧ (∀ i ∈ issues,
        (lookupKey (keyOf i.path) (flattenErrors issues)).isSome = true) := by
  constructor
  · rw [lookupKey_flattenErrors, flatMap_writesOf_no_union issues h]
  · intro i hi
    rw [lookupKey_flattenErrors, flatMap_writesOf_no_union issues h]
    exact lastWrite_isSome_of_mem _ _ (keyOf i.path, i.message)
      (List.mem_map_of_mem _ hi) rfl

/-- Witness for C1 at a concrete input: two issues with the same path `a`;
the later issue's message `m2` is the one present. -/
theorem claim1_witness :
    ((∀ i ∈ [issueA, issueB], i.code ≠ "invalid_union")
      ∧ (lookupKey "a" (flattenErrors [issueA, issueB]) =
          lastWrite "a"
            ([issueA, issueB].map (fun i => (keyOf i.path, i.message))))
      ∧ (∀ i ∈ [issueA, issueB],
          (lookupKey (keyOf i.path)
            (flattenErrors [issueA, issueB])).isSome = true))
    ∧ lookupKey "a" (flattenErrors [issueA, issueB]) = some "m2" := by
  have hyp : ∀ i ∈ [issueA, issueB], i.code ≠ "invalid_union" := by
    intro i hi
    rcases List.mem_cons.mp hi with rfl | hi
    · exact fun hc => by simp [issueA, ZodIssue.code] at hc
    · rcases List.mem_cons.mp hi with rfl | hi
      · exact fun hc => by simp [issueB, ZodIssue.code] at hc
      · simp at hi
  refine ⟨⟨hyp, (claim1_flat_last_writer_wins [issueA, issueB] "a" hyp).1,
    (claim1_flat_last_writer_wins [issueA, issueB] "a" hyp).2⟩, ?_⟩
  rfl

/-- C3. In flattened mode, an `invalid_union` issue first writes its own
generic message at its dot-joined key, then writes every sub-issue of every
alternative branch at that sub-issue's own dot-joined key, in branch order
and then issue order within a branch; later writes overwrite earlier ones at
the same key. Formally, the final value at any key is the last write of the
full ordered write sequence `writesOf`, and for a union issue that sequence
is exactly the generic write followed by the per-branch sub-issue writes. -/
theorem claim3_union_expansion (issues : List ZodIssue) (k : String) :
    (lookupKey k (flattenErrors issues) =
      lastWrite k (issues.flatMap writesOf))
    ∧ (∀ i : ZodIssue, i.code = "invalid_union" →
        writesOf i = (keyOf i.path, i.message) ::
          i.unionErrors.flatMap
            (fun b => b.map (fun e => (keyOf e.path, e.message)))) := by
  refine ⟨lookupKey_flattenErrors issues k, ?_⟩
  intro i hi
  unfold writesOf
  rw [if_pos hi]

/-- Witness for C3 at a concrete input: a root union issue with two
branches; the second branch's write at `enabled` overwrites the first
branch's, and the generic message sits at the root key `""`. -/
theorem claim3_witness :
    ((lookupKey "enabled" (flattenErrors [unionIssue]) =
        lastWrite "enabled" ([unionIssue].flatMap writesOf))
      ∧ writesOf unionIssue = (keyOf unionIssue.path, unionIssue.message) ::
          unionIssue.unionErrors.flatMap
            (fun b => b.map (fun e => (keyOf e.path, e.message))))
    ∧ lookupKey "enabled" (flattenErrors [unionIssue]) = some "lit2"
    ∧ lookupKey "" (flattenErrors [unionIssue]) = some "Invalid input"
    ∧ lookupKey "title" (flattenErrors [unionIssue]) = some "req" :=
  ⟨⟨(claim3_union_expansion [unionIssue] "enabled").1,
    (claim3_union_expansion [unionIssue] "enabled").2 unionIssue rfl⟩,
   rfl, rfl, rfl⟩

/-- C10. Union-failure expansion is exactly one level deep: every key
present in the flattened error map is either the dot-joined key of a
top-level issue or the dot-joined key of a direct sub-issue of one of a
union issue's alternative branches; the alternative branches of a nested
`invalid_union` sub-issue contribute no keys of their own. -/
theorem claim10_union_one_level (issues : List ZodIssue) (k : String)
    (h : (lookupKey k (flattenErrors issues)).isSome = true) :
    (∃ i ∈ issues, keyOf i.path = k)
    ∨ (∃ i ∈ issues, i.code = "invalid_union"
        ∧ ∃ b ∈ i.unionErrors, ∃ e ∈ b, keyOf e.path = k) := by
  rw [lookupKey_flattenErrors] at h
  cases hl : lastWrite k (issues.flatMap writesOf) with
  | none => rw [hl] at h; simp at h
  | some v =>
    obtain ⟨p, hp, hk, _⟩ := lastWrite_isSome_mem k _ v hl
    obtain ⟨i, hi, hpw⟩ := List.mem_flatMap.mp hp
    unfold writesOf at hpw
    rcases List.mem_cons.mp hpw with rfl | htail
    · exact Or.inl ⟨i, hi, hk⟩
    · by_cases hc : i.code = "invalid_union"
      · rw [if_pos hc] at htail
        obtain ⟨b, hb, hpb⟩ := List.mem_flatMap.mp htail
        obtain ⟨e, he, hpe⟩ := List.mem_map.mp hpb
        refine Or.inr ⟨i, hi, hc, b, hb, e, he, ?_⟩
        rw [← hk, ← hpe]
      · rw [if_neg hc] at htail
        simp at htail

/-- Witness for C10 at a concrete input: the map built from one plain issue
has a populated key, and that key is the issue's own. -/
theorem claim10_witness :
    ((lookupKey "a" (flattenErrors [issueA])).isSome = true)
    ∧ ((∃ i ∈ [issueA], keyOf i.path = "a")
      ∨ (∃ i ∈ [issueA], i.code = "invalid_union"
          ∧ ∃ b ∈ i.unionErrors, ∃ e ∈ b, keyOf e.path = "a")) :=
  ⟨rfl, claim10_union_one_level [issueA] "a" rfl⟩

/-- C4. In nested (non-flat) mode, each issue's contribution is built by a
right fold over its path — the last segment maps directly to the message,
each outer segment adds one wrapping level (`buildInner`, proven equal to
the structural right fold `nestedOne`) — and single-issue mappings are
merged into the accumulator by a shallow top-level merge only: the final
value at any root key is the whole subtree of the last issue rooted at that
key, so a later issue sharing a root segment replaces the earlier issue's
entire subtree, with no deep merge. -/
theorem claim4_nested_mode :
    (∀ (path : List Seg) (msg : String),
      buildInner path msg = nestedOne path msg)
    ∧ (∀ (issues : List ZodIssue) (k : String),
        lookupKey k (flattenErrorsV2 issues false) =
          lastWrite k
            (issues.flatMap (fun i => nestedOne i.path i.message))) :=
  ⟨buildInner_eq_nestedOne, lookupKey_flattenErrorsV2⟩

/-- C8. In nested mode, an issue whose path is empty contributes nothing:
the right fold over the empty path yields the empty mapping, whose shallow
merge leaves the accumulator unchanged, so the issue's message is dropped
from the result — whereas in flattened mode the same issue appears under
the key `""`. -/
theorem claim8_nested_root_issue_dropped (pre post : List ZodIssue)
    (i : ZodIssue) (h : i.path = []) :
    (flattenErrorsV2 (pre ++ i :: post) false =
      flattenErrorsV2 (pre ++ post) false)
    ∧ flattenErrorsV2 [i] true = [("", NVal.str i.message)] := by
  constructor
  · unfold flattenErrorsV2
    rw [List.foldl_append, List.foldl_append, List.foldl_cons]
    have hstep : ∀ m : List (String × NVal),
        (if (false : Bool) then setKey m (keyOf i.path) (NVal.str i.message)
         else mergeShallow m (buildInner i.path i.message)) = m := by
      intro m
      simp only [Bool.false_eq_true, if_false]
      rw [h]
      rfl
    rw [hstep]
  · unfold flattenErrorsV2
    rw [List.foldl_cons, List.foldl_nil]
    simp only [if_true]
    rw [h]
    rfl

/-- Witness for C8 at a concrete input: a root-path issue between two plain
issues vanishes from the nested result, while flat mode keeps it at `""`. -/
theorem claim8_witness :
    (rootIssue.path = [])
    ∧ (flattenErrorsV2 [issueA, rootIssue, issueB] false =
        flattenErrorsV2 [issueA, issueB] false)
    ∧ flattenErrorsV2 [rootIssue] true = [("", NVal.str rootIssue.message)] :=
  ⟨rfl,
   (claim8_nested_root_issue_dropped [issueA] [issueB] rootIssue rfl).1,
   (claim8_nested_root_issue_dropped [issueA] [issueB] rootIssue rfl).2⟩

/-- C2. The object returned by `parseForm` always has exactly one of the two
shapes: on validation success `validData` is populated and both `errors` and
`zodError` are absent; on validation failure `errors` (and `zodError`) are
populated and `validData` is absent — never both populated, never
neither. -/
theorem claim2_result_exclusive (schema : Schema) (data : InputData)
    (options : ParseOptions) :
    (((parseForm schema data options).res.validData.isSome = true)
      ∧ (parseForm schema data options).res.errors = none
      ∧ (parseForm schema data options).res.zodError = none)
    ∨ (((parseForm schema data options).res.errors.isSome = true)
      ∧ ((parseForm schema data options).res.zodError.isSome = true)
      ∧ (parseForm schema data options).res.validData = none) := by
  unfold parseForm
  cases schema (prepareData data options.stripEmptyStrings) with
  | success d => exact Or.inl ⟨rfl, rfl, rfl⟩
  | failure issues => exact Or.inr ⟨rfl, rfl, rfl⟩

/-- C5. With `stripEmptyStrings` enabled, every key of the normalized
mapping whose value is exactly the empty string reads back as `undefined`
after pre-processing while all other keys read back unchanged; the stripped
mapping is the very value handed to the schema (pre-processing runs strictly
before validation); and with the option disabled the normalized mapping
reaches the schema unmodified. -/
theorem claim5_strip_empty_strings :
    (∀ (m : List (String × JValue)) (k : String),
      lookupKey k (stripEmptyValues m) =
        (lookupKey k m).map
          (fun v => if v.isEmptyStr then JValue.undef else v))
    ∧ (∀ (m : List (String × JValue)),
        prepareData (.record m) true = .obj (stripEmptyValues m))
    ∧ (∀ (data : InputData), prepareData data false = normalizeInput data)
    ∧ (∀ (schema : Schema) (data : InputData) (b : Bool),
        parseForm schema data ⟨b⟩ =
          assembleResult (schema (prepareData data b))
            (dataAfterCall data b)) :=
  ⟨lookupKey_stripEmptyValues, fun _ => rfl, fun _ => rfl,
   fun _ _ _ => rfl⟩

/-- C6 counterexample. The claim asserts that `parseForm` fails with an
`InvalidInputKind` condition, without proceeding to validation, whenever
`data` is neither a plain mapping nor a form-encoded container. The code
performs no such check: at the concrete input `5` (a number) with a schema
that accepts any value, `parseForm` returns a success result — validation
was invoked and no failure of any kind occurred. -/
theorem claim6_counterexample :
    ((parseForm acceptAllSchema (.other (.num 5)) ⟨false⟩).res.validData
        = some (.num 5))
    ∧ ((parseForm acceptAllSchema (.other (.num 5)) ⟨false⟩).res.errors
        = none) :=
  ⟨rfl, rfl⟩

/-- C6 amended. `parseForm` performs no input-container check: with
`stripEmptyStrings` unset (the default), a `data` value that is neither
`FormData` nor `URLSearchParams` is forwarded unchanged to the schema's
`safeParse`, and the outcome is whatever validation yields — for a typical
object schema a root-level type failure in `errors`, for a permissive schema
even a success. (With `stripEmptyStrings` set, the pre-processing loop
itself throws a `TypeError` at `Object.keys` when such a value is `null` or
`undefined` — see `stripStageThrows` — still not an `InvalidInputKind`
condition; that throwing path lies outside this equation's scope.) -/
theorem claim6_amended (schema : Schema) (v : JValue) :
    parseForm schema (.other v) ⟨false⟩ =
      assembleResult (schema v) (.other v) := rfl

/-- C7. The input adapter for form-encoded containers iterates the entries
in their native order and assigns `result[key] = value` for each, so the
value finally stored under any key is that of the last entry with that key
(`lastWrite`), and keys with no entry are absent from the normalized
mapping. -/
theorem claim7_extract_form_data (entries : List (String × String))
    (k : String) :
    lookupKey k (extractFormData entries) =
      (lastWrite k entries).map JValue.str := by
  unfold extractFormData
  rw [show (entries.foldl
        (fun result p => setKey result p.1 (JValue.str p.2)) []) =
      ((entries.map (fun p => (p.1, JValue.str p.2))).foldl
        (fun result p => setKey result p.1 p.2) []) by
    rw [List.foldl_map]]
  rw [lookupKey_foldl_setKey, lastWrite_map]
  cases lastWrite k entries <;> rfl

/-- C9. With `stripEmptyStrings` enabled and a plain-mapping argument, the
caller's mapping itself is pre-processed: `unknownData` aliases the caller's
object, so after the call the caller's object is exactly `stripEmptyValues`
of the original — every key that held the empty string now holds
`undefined`, every other key is untouched — with no copy made before
pre-processing (the post-state of the caller's argument is part of
`parseForm`'s observable behaviour, modelled by `dataAfter`). -/
theorem claim9_record_mutation (schema : Schema)
    (m : List (String × JValue)) :
    ((parseForm schema (.record m) ⟨true⟩).dataAfter =
      .record (stripEmptyValues m))
    ∧ (∀ k, lookupKey k m = some (.str "") →
        lookupKey k (stripEmptyValues m) = some JValue.undef)
    ∧ (∀ k v, lookupKey k m = some v → v.isEmptyStr = false →
        lookupKey k (stripEmptyValues m) = some v) := by
  refine ⟨?_, ?_, ?_⟩
  · unfold parseForm
    cases schema (prepareData (.record m)
      ((⟨true⟩ : ParseOptions).stripEmptyStrings)) <;> rfl
  · intro k hk
    rw [lookupKey_stripEmptyValues, hk]
    rfl
  · intro k v hk hv
    rw [lookupKey_stripEmptyValues, hk]
    simp [hv]

/-- Witness for C9 at a concrete input: a mapping with one empty-string
value and one non-empty value. -/
theorem claim9_witness :
    ((parseForm acceptAllSchema
        (.record [("a", .str ""), ("b", .str "x")]) ⟨true⟩).dataAfter =
      .record (stripEmptyValues [("a", .str ""), ("b", .str "x")]))
    ∧ (lookupKey "a" [("a", JValue.str ""), ("b", JValue.str "x")] =
        some (.str "")
      ∧ lookupKey "a"
          (stripEmptyValues [("a", JValue.str ""), ("b", JValue.str "x")]) =
        some JValue.undef)
    ∧ (lookupKey "b"
          (stripEmptyValues [("a", JValue.str ""), ("b", JValue.str "x")]) =
        some (.str "x")) :=
  ⟨(claim9_record_mutation acceptAllSchema
      [("a", .str ""), ("b", .str "x")]).1,
   ⟨rfl, (claim9_record_mutation acceptAllSchema
      [("a", .str ""), ("b", .str "x")]).2.1 "a" rfl⟩,
   (claim9_record_mutation acceptAllSchema
      [("a", .str ""), ("b", .str "x")]).2.2 "b" (.str "x") rfl rfl⟩

end ZodFriendlyForms
